import Mathlib

set_option linter.unusedVariables false

/-!
# Verification of `deep_chem/utils/evaluate.py`

Shallow embedding of the model-evaluation utilities: `model_predictions`,
`eval_model`, `compute_roc_auc_scores`, `compute_r2_scores`,
`compute_rms_scores`.  Python dicts become association lists with Python
dict-assignment semantics, numeric values become rationals, raised
exceptions become `Except String` errors carrying the source's messages.
-/

namespace DeepChem

/-- Python dict lookup `d[k]` on an association list: first entry wins. -/
def dictGet {α : Type} : List (String × α) → String → Option α
  | [], _ => none
  | (k, v) :: rest, key => if key = k then some v else dictGet rest key

/-- Python dict assignment `d[k] = v`: replace in place if the key exists,
otherwise append at the end (insertion order preserved). -/
def dictInsert {α : Type} (d : List (String × α)) (k : String) (v : α) :
    List (String × α) :=
  if d.any (fun p => p.1 = k) then
    d.map (fun p => if p.1 = k then (k, v) else p)
  else d ++ [(k, v)]

/-- Turn an optional value into an `Except`, raising the given message on
`none` (models Python's implicit `KeyError` / `IndexError`). -/
def orErr {α : Type} (o : Option α) (e : String) : Except String α :=
  match o with
  | some a => Except.ok a
  | none => Except.error e

/-- Python list indexing `l[i]` with an `Int` index (negative indices count
from the end). -/
def pyIndex {α : Type} (l : List α) (i : Int) : Option α :=
  if 0 ≤ i then l[i.toNat]?
  else if 0 ≤ (l.length : Int) + i then l[((l.length : Int) + i).toNat]?
  else none

/-- Strict comparison of characters by code point (Python's string order
compares code points). -/
def charLt (a b : Char) : Bool := decide (a.val.toNat < b.val.toNat)

/-- Lexicographic `≤` on character lists by code point. -/
def lexLe : List Char → List Char → Bool
  | [], _ => true
  | _ :: _, [] => false
  | a :: as, b :: bs =>
    if charLt a b then true
    else if charLt b a then false
    else lexLe as bs

/-- Lexicographic `≤` on strings by code point, as Python compares them. -/
def strLe (a b : String) : Bool := lexLe a.data b.data

/-- Python `sorted` on a list of strings (lexicographic, ascending). -/
def pySorted (l : List String) : List String :=
  l.insertionSort (fun a b => strLe a b)

/-- The decimal value of a digit character, if it is one. -/
def charDigit (c : Char) : Option Nat :=
  if 48 ≤ c.val.toNat ∧ c.val.toNat ≤ 57 then some (c.val.toNat - 48) else none

/-- Accumulate a decimal number over a list of digit characters. -/
def parseNatAux : List Char → Nat → Option Nat
  | [], acc => some acc
  | c :: cs, acc =>
    match charDigit c with
    | some d => parseNatAux cs (acc * 10 + d)
    | none => none

/-- Python `int(s)` on a decimal string literal (optional sign followed by
digits; anything else raises ValueError, modelled as `none`). -/
def pyInt (s : String) : Option Int :=
  match s.data with
  | [] => none
  | '-' :: cs =>
    if cs = [] then none
    else (parseNatAux cs 0).map (fun n => -(n : Int))
  | '+' :: cs =>
    if cs = [] then none
    else (parseNatAux cs 0).map (fun n => (n : Int))
  | cs => (parseNatAux cs 0).map (fun n => (n : Int))

/-- Python `enumerate`, starting at the given index. -/
def pyEnumFrom {α : Type} (start : Nat) : List α → List (Nat × α)
  | [] => []
  | x :: xs => (start, x) :: pyEnumFrom (start + 1) xs

/-- Python `enumerate` starting at 0. -/
def pyEnum {α : Type} (l : List α) : List (Nat × α) := pyEnumFrom 0 l

/-- One record of the test set: its `labels` dict mapping task names to
label values, and its `descriptors` vector of auxiliary regression
targets. -/
structure Datapoint where
  labels : List (String × ℚ)
  descriptors : List ℚ
  deriving DecidableEq

/-- A test set: Python dict from sample identifier (smiles string) to
datapoint. -/
abbrev TestSet := List (String × Datapoint)

/-- The raw value returned by a model's prediction call: either a single
unwrapped array (one prediction row per sample), or a list of per-endpoint
arrays. -/
inductive PredOutput where
  | single (arr : List (List ℚ))
  | multi (arrs : List (List (List ℚ)))
  deriving DecidableEq

/-- An opaque trained model: `predict_proba` (sklearn convention),
`predict` (keras convention), and the output dict of the multi-head
`predict` call (keras_multitask convention), keyed by output-block name. -/
structure Model where
  predict_proba : PredOutput
  predict : PredOutput
  predict_dict : String → Option (List (List ℚ))

/-- The output-block name `"task%d" % index` used by the keras_multitask
convention. -/
def taskKey (index : Nat) : String := "task" ++ toString index

/-- The loop `for index in range(n_outputs): ypreds.append(predictions["task%d" % index])`. -/
def collectBlocks (model : Model) (n_outputs : Nat) :
    Except String (List (List (List ℚ))) :=
  (List.range n_outputs).mapM
    (fun index => orErr (model.predict_dict (taskKey index)) "KeyError")

/-- `model_predictions(test_set, model, n_targets, n_descriptors, add_descriptors, modeltype)`
from `evaluate.py`: obtains predictions of the model on the test set and
normalizes them into a list of per-endpoint prediction arrays. -/
def model_predictions (test_set : TestSet) (model : Model) (n_targets : Nat)
    (n_descriptors : Nat) (add_descriptors : Bool) (modeltype : String) :
    Except String (List (List (List ℚ))) := do
  let n_outputs := if add_descriptors then n_targets + n_descriptors else n_targets
  let ypreds ←
    if modeltype = "sklearn" then pure model.predict_proba
    else if modeltype = "keras" then pure model.predict
    else if modeltype = "keras_multitask" then do
      let blocks ← collectBlocks model n_outputs
      pure (PredOutput.multi blocks)
    else Except.error "Improper modeltype."
  -- Handle the edge case for singletask: `if type(ypreds) != list: ypreds = [ypreds]`.
  match ypreds with
  | PredOutput.single arr => pure [arr]
  | PredOutput.multi arrs => pure arrs

/-- `sorted(task_types.keys())` from `eval_model`. -/
def sorted_targetsOf (task_types : List (String × String)) : List String :=
  pySorted (task_types.map Prod.fst)

/-- The endpoint list of `eval_model`: sorted task names followed, when
descriptor inclusion is enabled, by sorted descriptor keys. -/
def endpointsOf (task_types desc_transforms : List (String × String))
    (add_descriptors : Bool) : List String :=
  if add_descriptors then
    sorted_targetsOf task_types ++ pySorted (desc_transforms.map Prod.fst)
  else sorted_targetsOf task_types

/-- The working copy `local_task_types` of `eval_model`: the task-type dict
with every descriptor key set to `"regression"` when descriptors are
included. -/
def local_task_typesOf (task_types desc_transforms : List (String × String))
    (add_descriptors : Bool) : String → Option String :=
  if add_descriptors then
    fun k =>
      if (desc_transforms.map Prod.fst).contains k then some "regression"
      else dictGet task_types k
  else fun k => dictGet task_types k

/-- The per-endpoint pair `(ytrue, yscore)` accumulated by `eval_model`. -/
abbrev Pair := List ℚ × List (List ℚ)

/-- The results dict of `eval_model`. -/
abbrev Results := List (String × Pair)

/-- The body of `eval_model`'s inner loop for one `(t_ind, target)` pair of
`enumerate(endpoints)` at sample position `index`. -/
def evalTargetStep (sorted_targets : List String)
    (local_task_types : String → Option String)
    (ypreds : List (List (List ℚ))) (datapoint : Datapoint) (index : Nat)
    (acc : Results) (t_ind : Nat) (target : String) : Except String Results := do
  let task_type ← orErr (local_task_types target) "KeyError"
  -- `if target in sorted_targets and labels[target] == -1: continue`
  let skip ←
    if sorted_targets.contains target then do
      let l ← orErr (dictGet datapoint.labels target) "KeyError"
      pure (l == -1)
    else pure false
  if skip then pure acc
  else do
    let p ← orErr (dictGet acc target) "KeyError"
    let ytrue := p.1
    let yscore := p.2
    let ytrue' ←
      if task_type = "classification" then do
        let l ← orErr (dictGet datapoint.labels target) "KeyError"
        if l = 0 then pure (ytrue ++ [(0 : ℚ)])
        else if l = 1 then pure (ytrue ++ [(1 : ℚ)])
        else Except.error "Labels must be 0/1."
      else if sorted_targets.contains target ∧ task_type = "regression" then do
        let l ← orErr (dictGet datapoint.labels target) "KeyError"
        pure (ytrue ++ [l])
      else if ¬ sorted_targets.contains target = true ∧ task_type = "regression" then do
        -- The "target" for descriptors is simply the index in the descriptor vector.
        let i ← orErr (pyInt target) "ValueError"
        let d ← orErr (pyIndex datapoint.descriptors i) "IndexError"
        pure (ytrue ++ [d])
      else Except.error "task_type must be classification or regression."
    let pval ← orErr (ypreds[t_ind]?.bind (fun arr => arr[index]?)) "IndexError"
    pure (dictInsert acc target (ytrue', yscore ++ [pval]))

/-- `eval_model`'s inner loop over `enumerate(endpoints)` for one sample. -/
def evalTargets (sorted_targets : List String)
    (local_task_types : String → Option String)
    (ypreds : List (List (List ℚ))) (datapoint : Datapoint) (index : Nat)
    (acc : Results) : List (Nat × String) → Except String Results
  | [] => Except.ok acc
  | (t_ind, target) :: rest => do
    let acc' ← evalTargetStep sorted_targets local_task_types ypreds datapoint
      index acc t_ind target
    evalTargets sorted_targets local_task_types ypreds datapoint index acc' rest

/-- `eval_model`'s outer loop over `enumerate(sorted_smiles)`. -/
def evalSamples (test_set : TestSet) (sorted_targets : List String)
    (local_task_types : String → Option String) (endpoints : List String)
    (ypreds : List (List (List ℚ))) (acc : Results) :
    List (Nat × String) → Except String Results
  | [] => Except.ok acc
  | (index, smiles) :: rest => do
    let datapoint ← orErr (dictGet test_set smiles) "KeyError"
    let acc' ← evalTargets sorted_targets local_task_types ypreds datapoint
      index acc (pyEnum endpoints)
    evalSamples test_set sorted_targets local_task_types endpoints ypreds acc' rest

/-- `eval_model(test_set, model, task_types, desc_transforms, modeltype, add_descriptors)`
from `evaluate.py`: aligns per-endpoint ground-truth labels with model
predictions over the test set, in sorted sample order.  The final
`np.array` conversion is shape-preserving and is the identity here. -/
def eval_model (test_set : TestSet) (model : Model)
    (task_types desc_transforms : List (String × String)) (modeltype : String)
    (add_descriptors : Bool) : Except String Results := do
  let sorted_targets := sorted_targetsOf task_types
  let endpoints := endpointsOf task_types desc_transforms add_descriptors
  let local_task_types := local_task_typesOf task_types desc_transforms add_descriptors
  let ypreds ← model_predictions test_set model sorted_targets.length
    desc_transforms.length add_descriptors modeltype
  let init := endpoints.foldl (fun d t => dictInsert d t ([], [])) []
  let sorted_smiles := pySorted (test_set.map Prod.fst)
  evalSamples test_set sorted_targets local_task_types endpoints ypreds init
    (pyEnum sorted_smiles)

/-! ## Characterization functions

Derived (specification-side) descriptions of what one pass of the aligner
appends, used to state the theorems.  They are read off the loop body of
`eval_model`. -/

/-- Whether `eval_model`'s loop skips the (sample, endpoint) pair for a
datapoint: the endpoint is a primary task and its label is the missing
sentinel `-1`. -/
def skipsDp (sorted_targets : List String) (target : String) (dp : Datapoint) :
    Bool :=
  sorted_targets.contains target &&
    match dictGet dp.labels target with
    | some l => l == -1
    | none => false

/-- The ground-truth value `eval_model` appends for a non-skipped
(sample, endpoint) pair, assuming the pass succeeds. -/
def trueValueDp (sorted_targets : List String)
    (local_task_types : String → Option String) (target : String)
    (dp : Datapoint) : ℚ :=
  match local_task_types target with
  | none => 0
  | some tt =>
    if tt = "classification" then (dictGet dp.labels target).getD 0
    else if sorted_targets.contains target then (dictGet dp.labels target).getD 0
    else
      match pyInt target with
      | none => 0
      | some i => (pyIndex dp.descriptors i).getD 0

/-- The predicted value `eval_model` appends for endpoint position `t_ind`
and sample position `index`, assuming the pass succeeds. -/
def predValueAt (ypreds : List (List (List ℚ))) (t_ind index : Nat) : List ℚ :=
  (ypreds[t_ind]?.bind (fun arr => arr[index]?)).getD []

/-- `skipsDp` lifted to a sample identifier via the test-set dict. -/
def skipsSm (test_set : TestSet) (sorted_targets : List String)
    (target sm : String) : Bool :=
  match dictGet test_set sm with
  | some dp => skipsDp sorted_targets target dp
  | none => false

/-- `trueValueDp` lifted to a sample identifier via the test-set dict. -/
def trueValueSm (test_set : TestSet) (sorted_targets : List String)
    (local_task_types : String → Option String) (target sm : String) : ℚ :=
  match dictGet test_set sm with
  | some dp => trueValueDp sorted_targets local_task_types target dp
  | none => 0

/-- The enumerated samples that actually contribute to an endpoint's pair:
the sorted, enumerated sample list minus the skipped ones. -/
def keptFor (test_set : TestSet) (sorted_targets : List String)
    (target : String) (sl : List (Nat × String)) : List (Nat × String) :=
  sl.filter (fun p => !(skipsSm test_set sorted_targets target p.2))

/-- The kept (contributing) enumerated samples of a full `eval_model` run
for a given endpoint. -/
def keptSamples (ts : TestSet) (tts : List (String × String)) (tg : String) :
    List (Nat × String) :=
  keptFor ts (sorted_targetsOf tts) tg (pyEnum (pySorted (ts.map Prod.fst)))

/-- The number of (sample, endpoint) pairs of an `eval_model` run skipped
for an endpoint because of a missing (-1) label. -/
def skippedCount (ts : TestSet) (tts : List (String × String)) (tg : String) :
    Nat :=
  ((pySorted (ts.map Prod.fst)).filter
    (fun sm => skipsSm ts (sorted_targetsOf tts) tg sm)).length

/-! ## Metric aggregators -/

/-- Modelled from the spec: `labels_to_weights` is defined elsewhere in the
repository (outside this module); per §4.3 it computes a per-sample
weighting that corrects for class imbalance — each sample's weight is
inversely proportional to the frequency of its true class within the
endpoint, so both classes contribute equal total weight. -/
def labels_to_weights (ytrue : List ℚ) : List ℚ :=
  ytrue.map (fun l => (ytrue.length : ℚ) / (ytrue.count l : ℚ))

/-- The numpy column slice `yscore[:,1]`: the second entry of every
prediction row (IndexError when a row is too short). -/
def column1 : List (List ℚ) → Except String (List ℚ)
  | [] => Except.ok []
  | row :: rest => do
    let v ← orErr row[1]? "IndexError"
    let vs ← column1 rest
    pure (v :: vs)

/-- The loop of `compute_roc_auc_scores`, iterating over the results dict
and accumulating the scores dict.  `roc_auc_score` is an external sklearn
primitive, abstracted as the function argument `roc` taking the true
labels, the positive-class column `yscore[:,1]`, and the sample weights. -/
def aucFold (roc : List ℚ → List ℚ → List ℚ → ℚ)
    (task_types : List (String × String)) :
    List (String × Pair) → List (String × ℚ) →
      Except String (List (String × ℚ))
  | [], scores => Except.ok scores
  | (target, p) :: rest, scores => do
    let tt ← orErr (dictGet task_types target) "KeyError"
    if tt ≠ "classification" then aucFold roc task_types rest scores
    else do
      let sample_weights := labels_to_weights p.1
      let col ← column1 p.2
      let score := roc p.1 col sample_weights
      aucFold roc task_types rest (dictInsert scores target score)

/-- `compute_roc_auc_scores(results, task_types)` from `evaluate.py`
(print statements dropped; `roc_auc_score` abstracted as `roc`). -/
def compute_roc_auc_scores (roc : List ℚ → List ℚ → List ℚ → ℚ)
    (results : Results) (task_types : List (String × String)) :
    Except String (List (String × ℚ)) :=
  aucFold roc task_types results []

/-- The loop of `compute_r2_scores`; `r2_score` is an external sklearn
primitive abstracted as `r2`. -/
def r2Fold (r2 : List ℚ → List (List ℚ) → ℚ)
    (task_types : List (String × String)) :
    List (String × Pair) → List (String × ℚ) →
      Except String (List (String × ℚ))
  | [], scores => Except.ok scores
  | (target, p) :: rest, scores => do
    let tt ← orErr (dictGet task_types target) "KeyError"
    if tt ≠ "regression" then r2Fold r2 task_types rest scores
    else r2Fold r2 task_types rest (dictInsert scores target (r2 p.1 p.2))

/-- `compute_r2_scores(results, task_types)` from `evaluate.py`. -/
def compute_r2_scores (r2 : List ℚ → List (List ℚ) → ℚ) (results : Results)
    (task_types : List (String × String)) :
    Except String (List (String × ℚ)) :=
  r2Fold r2 task_types results []

/-- The loop of `compute_rms_scores`; `np.sqrt(mean_squared_error(..))` is
abstracted as the single external primitive `rms`. -/
def rmsFold (rms : List ℚ → List (List ℚ) → ℚ)
    (task_types : List (String × String)) :
    List (String × Pair) → List (String × ℚ) →
      Except String (List (String × ℚ))
  | [], scores => Except.ok scores
  | (target, p) :: rest, scores => do
    let tt ← orErr (dictGet task_types target) "KeyError"
    if tt ≠ "regression" then rmsFold rms task_types rest scores
    else rmsFold rms task_types rest (dictInsert scores target (rms p.1 p.2))

/-- `compute_rms_scores(results, task_types)` from `evaluate.py`. -/
def compute_rms_scores (rms : List ℚ → List (List ℚ) → ℚ) (results : Results)
    (task_types : List (String × String)) :
    Except String (List (String × ℚ)) :=
  rmsFold rms task_types results []

/-- Specification-side description of the AUC scores dict: one entry per
classification endpoint of the results dict, in order, scored from the
true labels, the second column of the predictions, and the class-imbalance
weights. -/
def aucScoresSpec (roc : List ℚ → List ℚ → List ℚ → ℚ)
    (task_types : List (String × String)) (results : Results) :
    List (String × ℚ) :=
  results.filterMap (fun e =>
    if dictGet task_types e.1 = some "classification" then
      some (e.1, roc e.2.1 (e.2.2.map (fun row => row[1]?.getD 0))
        (labels_to_weights e.2.1))
    else none)

/-! ## Concrete fixtures used by the witnesses -/

/-- The spec §8 end-to-end scenario test set. -/
def tsC3 : TestSet :=
  [("A", ⟨[("t1", 1)], []⟩), ("B", ⟨[("t1", 0)], []⟩), ("C", ⟨[("t1", -1)], []⟩)]

/-- A model producing the spec §8 scenario's probability pairs as a single
unwrapped `predict_proba` array. -/
def modelC3 : Model :=
  { predict_proba := PredOutput.single [[0.1, 0.9], [0.8, 0.2], [0.5, 0.5]]
    predict := PredOutput.multi []
    predict_dict := fun _ => none }

/-- A test set holding an invalid classification label (2). -/
def tsBadLabel : TestSet :=
  [("A", ⟨[("t1", 2)], []⟩)]

/-- A test set with one sample carrying one label and one descriptor. -/
def tsDesc : TestSet :=
  [("A", ⟨[("t1", 1)], [7]⟩)]

/-- A model with one primary-task output and one descriptor output. -/
def modelDesc : Model :=
  { predict_proba := PredOutput.multi [[[0.3, 0.7]], [[5]]]
    predict := PredOutput.multi []
    predict_dict := fun _ => none }

/-- Well-formedness of one (sample, endpoint) step of `eval_model`: every
lookup the step performs apart from the 0/1 label check succeeds — the
endpoint has a recognized task type, classification endpoints are primary
tasks, primary labels are present, descriptor endpoints parse and index
into the descriptor vector, and the prediction entry exists. -/
def stepWF (sorted_targets : List String)
    (local_task_types : String → Option String)
    (ypreds : List (List (List ℚ))) (dp : Datapoint) (index t_ind : Nat)
    (tg : String) : Prop :=
  (∃ tt, local_task_types tg = some tt ∧
    (tt = "classification" ∨ tt = "regression")) ∧
  (local_task_types tg = some "classification" →
    sorted_targets.contains tg = true) ∧
  (sorted_targets.contains tg = true → ∃ l, dictGet dp.labels tg = some l) ∧
  (sorted_targets.contains tg = false → ∃ i, pyInt tg = some i ∧
    ∃ dv, pyIndex dp.descriptors i = some dv) ∧
  (∃ pv, ypreds[t_ind]?.bind (fun arr => arr[index]?) = some pv)

/-! ## Basic lemmas on the dict / monad helpers -/

@[simp] theorem orErr_some {α : Type} (a : α) (e : String) :
    orErr (some a) e = Except.ok a := rfl

@[simp] theorem orErr_none {α : Type} (e : String) :
    orErr (none : Option α) e = Except.error e := rfl

@[simp] theorem ok_bind {α β : Type} (a : α) (f : α → Except String β) :
    (Except.ok a >>= f) = f a := rfl

@[simp] theorem error_bind {α β : Type} (e : String) (f : α → Except String β) :
    ((Except.error e : Except String α) >>= f) = Except.error e := rfl

@[simp] theorem pure_eq_ok {α : Type} (a : α) :
    (pure a : Except String α) = Except.ok a := rfl

theorem dictGet_append {α : Type} (l1 l2 : List (String × α)) (k : String) :
    dictGet (l1 ++ l2) k =
      match dictGet l1 k with
      | some v => some v
      | none => dictGet l2 k := by
  induction l1 with
  | nil => simp [dictGet]
  | cons p rest ih =>
    by_cases hk : k = p.1 <;> simp [dictGet, hk, ih]

theorem dictGet_eq_none_of_not_any {α : Type} (d : List (String × α))
    (k : String) (h : d.any (fun p => p.1 = k) = false) : dictGet d k = none := by
  induction d with
  | nil => rfl
  | cons p rest ih =>
    simp only [List.any_cons, Bool.or_eq_false_iff, decide_eq_false_iff_not] at h
    have hne : ¬ k = p.1 := fun hk => h.1 hk.symm
    simp [dictGet, hne, ih h.2]

theorem dictGet_replace_self {α : Type} (d : List (String × α)) (k : String)
    (v : α) (h : d.any (fun p => p.1 = k) = true) :
    dictGet (d.map (fun p => if p.1 = k then (k, v) else p)) k = some v := by
  induction d with
  | nil => simp at h
  | cons p rest ih =>
    by_cases hk : p.1 = k
    · rw [List.map_cons, if_pos hk]
      simp [dictGet]
    · simp only [List.any_cons, decide_eq_true_eq, hk, false_or] at h
      rw [List.map_cons, if_neg hk]
      have hne : ¬ k = p.1 := fun hkk => hk hkk.symm
      simp [dictGet, hne, ih h]

theorem dictGet_replace_ne {α : Type} (d : List (String × α)) (k k' : String)
    (v : α) (h : k' ≠ k) :
    dictGet (d.map (fun p => if p.1 = k then (k, v) else p)) k' = dictGet d k' := by
  induction d with
  | nil => rfl
  | cons p rest ih =>
    by_cases hk : p.1 = k
    · rw [List.map_cons, if_pos hk]
      have hne : ¬ k' = p.1 := fun hkk => h (hkk.trans hk)
      simp [dictGet, h, hne, ih]
    · rw [List.map_cons, if_neg hk]
      by_cases hpk : k' = p.1 <;> simp [dictGet, hpk, ih]

@[simp] theorem dictGet_dictInsert_self {α : Type} (d : List (String × α))
    (k : String) (v : α) : dictGet (dictInsert d k v) k = some v := by
  unfold dictInsert
  by_cases hmem : d.any (fun p => p.1 = k)
  · simp [hmem, dictGet_replace_self d k v hmem]
  · simp only [Bool.not_eq_true] at hmem
    simp [hmem, dictGet_append, dictGet_eq_none_of_not_any d k hmem, dictGet]

@[simp] theorem dictGet_dictInsert_ne {α : Type} (d : List (String × α))
    (k k' : String) (v : α) (h : k' ≠ k) :
    dictGet (dictInsert d k v) k' = dictGet d k' := by
  unfold dictInsert
  by_cases hmem : d.any (fun p => p.1 = k)
  · simp [hmem, dictGet_replace_ne d k k' v h]
  · simp only [Bool.not_eq_true] at hmem
    simp only [hmem, Bool.false_eq_true, if_false, dictGet_append]
    cases hd : dictGet d k' with
    | some v' => rfl
    | none => simp [dictGet, h]

theorem dictGet_some_mem {α : Type} {d : List (String × α)} {k : String} {v : α}
    (h : dictGet d k = some v) : (k, v) ∈ d := by
  induction d with
  | nil => simp [dictGet] at h
  | cons p rest ih =>
    by_cases hk : k = p.1
    · subst hk
      simp only [dictGet, if_true] at h
      cases h
      exact List.mem_cons_self _ _
    · simp only [dictGet, hk, if_false] at h
      exact List.mem_cons_of_mem _ (ih h)

theorem dictGet_foldl_init {α : Type} (endpoints : List String)
    (d0 : List (String × α)) (v0 : α) (k : String) :
    dictGet (endpoints.foldl (fun d t => dictInsert d t v0) d0) k =
      if k ∈ endpoints then some v0 else dictGet d0 k := by
  induction endpoints generalizing d0 with
  | nil => simp
  | cons e rest ih =>
    simp only [List.foldl_cons, ih (dictInsert d0 e v0)]
    by_cases hk : k ∈ rest
    · simp [hk, List.mem_cons]
    · by_cases hke : k = e
      · simp [hk, hke, List.mem_cons]
      · simp [hk, hke, List.mem_cons, dictGet_dictInsert_ne _ _ _ _ hke]

/-! ## Characterization of one endpoint step -/

theorem bind_pval_ok {yp : List (List (List ℚ))} {t_ind index : Nat}
    {acc : Results} {tg : String} {yv : List ℚ} {ys : List (List ℚ)}
    {acc' : Results}
    (h : (orErr (yp[t_ind]?.bind (fun arr => arr[index]?)) "IndexError" >>=
        fun pval => Except.ok (dictInsert acc tg (yv, ys ++ [pval]))) =
        Except.ok acc') :
    acc' = dictInsert acc tg (yv, ys ++ [predValueAt yp t_ind index]) := by
  cases hpv : yp[t_ind]?.bind (fun arr => arr[index]?) with
  | none => rw [hpv] at h; simp at h
  | some pv =>
    rw [hpv] at h
    simp only [orErr_some, ok_bind, Except.ok.injEq] at h
    rw [← h, predValueAt, hpv]
    rfl

theorem evalTargetStep_ok_char {st : List String} {ltt : String → Option String}
    {yp : List (List (List ℚ))} {dp : Datapoint} {index : Nat} {acc : Results}
    {t_ind : Nat} {tg : String} {acc' : Results}
    (h : evalTargetStep st ltt yp dp index acc t_ind tg = Except.ok acc') :
    (skipsDp st tg dp = true ∧ acc' = acc) ∨
    (skipsDp st tg dp = false ∧ ∃ yt ys, dictGet acc tg = some (yt, ys) ∧
      acc' = dictInsert acc tg
        (yt ++ [trueValueDp st ltt tg dp],
         ys ++ [predValueAt yp t_ind index])) := by
  unfold evalTargetStep at h
  cases hlt : ltt tg with
  | none => rw [hlt] at h; simp at h
  | some tt =>
  rw [hlt] at h
  simp only [orErr_some, ok_bind] at h
  cases hc : st.contains tg with
  | true =>
    rw [hc] at h
    simp only [if_true] at h
    cases hl : dictGet dp.labels tg with
    | none => rw [hl] at h; simp at h
    | some l =>
    rw [hl] at h
    simp only [orErr_some, ok_bind, pure_eq_ok] at h
    cases hskip : (l == (-1 : ℚ)) with
    | true =>
      rw [hskip] at h
      simp only [if_true, pure_eq_ok, Except.ok.injEq] at h
      left
      refine ⟨?_, h.symm⟩
      simp only [skipsDp, hc, hl, Bool.true_and]
      exact hskip
    | false =>
      rw [hskip] at h
      simp only [Bool.false_eq_true, if_false] at h
      right
      have hskipD : skipsDp st tg dp = false := by
        simp only [skipsDp, hc, hl, Bool.true_and]
        exact hskip
      refine ⟨hskipD, ?_⟩
      cases hacc : dictGet acc tg with
      | none => rw [hacc] at h; simp at h
      | some p =>
      rw [hacc] at h
      simp only [orErr_some, ok_bind] at h
      refine ⟨p.1, p.2, rfl, ?_⟩
      by_cases htt : tt = "classification"
      · rw [if_pos htt] at h
        by_cases hl0 : l = 0
        · rw [if_pos hl0] at h
          have := bind_pval_ok h
          rw [this]
          simp [trueValueDp, hlt, htt, hl, hl0]
        · by_cases hl1 : l = 1
          · rw [if_neg hl0, if_pos hl1] at h
            have := bind_pval_ok h
            rw [this]
            simp [trueValueDp, hlt, htt, hl, hl1]
          · rw [if_neg hl0, if_neg hl1] at h
            simp at h
      · by_cases hreg : tt = "regression"
        · rw [if_neg htt, if_pos (by exact ⟨trivial, hreg⟩)] at h
          have := bind_pval_ok h
          rw [this]
          have hmem : tg ∈ st := by simpa using hc
          simp [trueValueDp, hlt, htt, hmem, hl]
        · rw [if_neg htt,
            if_neg (by intro hco; exact hreg hco.2),
            if_neg (by intro hco; exact hreg hco.2)] at h
          simp at h
  | false =>
    rw [hc] at h
    simp only [Bool.false_eq_true, if_false, pure_eq_ok, ok_bind,
      false_and, not_false_eq_true, true_and] at h
    right
    have hskipD : skipsDp st tg dp = false := by
      simp only [skipsDp, hc, Bool.false_and]
    refine ⟨hskipD, ?_⟩
    cases hacc : dictGet acc tg with
    | none => rw [hacc] at h; simp at h
    | some p =>
    rw [hacc] at h
    simp only [orErr_some, ok_bind] at h
    refine ⟨p.1, p.2, rfl, ?_⟩
    by_cases htt : tt = "classification"
    · rw [if_pos htt] at h
      cases hl : dictGet dp.labels tg with
      | none => rw [hl] at h; simp at h
      | some l =>
      rw [hl] at h
      simp only [orErr_some, ok_bind] at h
      by_cases hl0 : l = 0
      · rw [if_pos hl0] at h
        have := bind_pval_ok h
        rw [this]
        simp [trueValueDp, hlt, htt, hl, hl0]
      · by_cases hl1 : l = 1
        · rw [if_neg hl0, if_pos hl1] at h
          have := bind_pval_ok h
          rw [this]
          simp [trueValueDp, hlt, htt, hl, hl1]
        · rw [if_neg hl0, if_neg hl1] at h
          simp at h
    · by_cases hreg : tt = "regression"
      · rw [if_neg htt, if_pos hreg] at h
        cases hti : pyInt tg with
        | none => rw [hti] at h; simp at h
        | some i =>
        rw [hti] at h
        simp only [orErr_some, ok_bind] at h
        cases hpi : pyIndex dp.descriptors i with
        | none => rw [hpi] at h; simp at h
        | some dv =>
        rw [hpi] at h
        simp only [orErr_some, ok_bind] at h
        have := bind_pval_ok h
        rw [this]
        have hnmem : tg ∉ st := by simpa using hc
        simp [trueValueDp, hlt, htt, hnmem, hti, hpi]
      · rw [if_neg htt, if_neg hreg] at h
        simp at h

/-! ## Loop-level lemmas -/

theorem evalTargets_append (st : List String) (ltt : String → Option String)
    (yp : List (List (List ℚ))) (dp : Datapoint) (index : Nat) (acc : Results)
    (l1 l2 : List (Nat × String)) :
    evalTargets st ltt yp dp index acc (l1 ++ l2) =
      (evalTargets st ltt yp dp index acc l1) >>= fun a =>
        evalTargets st ltt yp dp index a l2 := by
  induction l1 generalizing acc with
  | nil => simp [evalTargets]
  | cons p rest ih =>
    obtain ⟨t_ind, tg⟩ := p
    simp only [List.cons_append, evalTargets]
    cases hstep : evalTargetStep st ltt yp dp index acc t_ind tg with
    | error e => simp [hstep]
    | ok acc1 => simp [hstep, ih acc1]

theorem evalTargets_frame {st : List String} {ltt : String → Option String}
    {yp : List (List (List ℚ))} {dp : Datapoint} {index : Nat} {acc : Results}
    {eps : List (Nat × String)} {acc' : Results} {tg : String}
    (hne : ∀ p ∈ eps, p.2 ≠ tg)
    (h : evalTargets st ltt yp dp index acc eps = Except.ok acc') :
    dictGet acc' tg = dictGet acc tg := by
  induction eps generalizing acc with
  | nil =>
    simp only [evalTargets, Except.ok.injEq] at h
    rw [h]
  | cons p rest ih =>
    obtain ⟨t_ind, tg'⟩ := p
    simp only [evalTargets] at h
    cases hstep : evalTargetStep st ltt yp dp index acc t_ind tg' with
    | error e => rw [hstep] at h; simp at h
    | ok acc1 =>
      rw [hstep] at h
      simp only [ok_bind] at h
      have htg' : tg' ≠ tg := hne (t_ind, tg') (List.mem_cons_self _ _)
      have hstepGet : dictGet acc1 tg = dictGet acc tg := by
        rcases evalTargetStep_ok_char hstep with ⟨_, heq⟩ | ⟨_, yt, ys, hget, heq⟩
        · rw [heq]
        · rw [heq, dictGet_dictInsert_ne _ _ _ _ (fun hh => htg' hh.symm)]
      rw [ih (fun q hq => hne q (List.mem_cons_of_mem _ hq)) h, hstepGet]

theorem evalTargets_keys {st : List String} {ltt : String → Option String}
    {yp : List (List (List ℚ))} {dp : Datapoint} {index : Nat} {acc : Results}
    {eps : List (Nat × String)} {acc' : Results} {k : String} {v : Pair}
    (h : evalTargets st ltt yp dp index acc eps = Except.ok acc')
    (hk : dictGet acc k = some v) : ∃ v', dictGet acc' k = some v' := by
  induction eps generalizing acc v with
  | nil =>
    simp only [evalTargets, Except.ok.injEq] at h
    exact ⟨v, h ▸ hk⟩
  | cons p rest ih =>
    obtain ⟨t_ind, tg'⟩ := p
    simp only [evalTargets] at h
    cases hstep : evalTargetStep st ltt yp dp index acc t_ind tg' with
    | error e => rw [hstep] at h; simp at h
    | ok acc1 =>
      rw [hstep] at h
      simp only [ok_bind] at h
      rcases evalTargetStep_ok_char hstep with ⟨_, heq⟩ | ⟨_, yt, ys, hget, heq⟩
      · exact ih h (heq ▸ hk)
      · by_cases hkt : k = tg'
        · subst hkt
          refine ih h (v := (yt ++ [trueValueDp st ltt k dp],
            ys ++ [predValueAt yp t_ind index])) ?_
          rw [heq, dictGet_dictInsert_self]
        · refine ih h (v := v) ?_
          rw [heq, dictGet_dictInsert_ne _ _ _ _ hkt, hk]

theorem evalTargets_hit {st : List String} {ltt : String → Option String}
    {yp : List (List (List ℚ))} {dp : Datapoint} {index : Nat} {acc : Results}
    {l1 l2 : List (Nat × String)} {t_ind : Nat} {tg : String} {acc' : Results}
    {yt : List ℚ} {ys : List (List ℚ)}
    (h1 : ∀ p ∈ l1, p.2 ≠ tg) (h2 : ∀ p ∈ l2, p.2 ≠ tg)
    (h : evalTargets st ltt yp dp index acc (l1 ++ (t_ind, tg) :: l2) =
      Except.ok acc')
    (hget : dictGet acc tg = some (yt, ys)) :
    dictGet acc' tg =
      if skipsDp st tg dp then some (yt, ys)
      else some (yt ++ [trueValueDp st ltt tg dp],
        ys ++ [predValueAt yp t_ind index]) := by
  rw [evalTargets_append] at h
  cases hmid : evalTargets st ltt yp dp index acc l1 with
  | error e => rw [hmid] at h; simp at h
  | ok acc1 =>
  rw [hmid] at h
  simp only [ok_bind, evalTargets] at h
  cases hstep : evalTargetStep st ltt yp dp index acc1 t_ind tg with
  | error e => rw [hstep] at h; simp at h
  | ok acc2 =>
  rw [hstep] at h
  simp only [ok_bind] at h
  have hget1 : dictGet acc1 tg = some (yt, ys) := by
    rw [evalTargets_frame h1 hmid, hget]
  have hframe2 := evalTargets_frame h2 h
  rcases evalTargetStep_ok_char hstep with ⟨hskip, heq⟩ | ⟨hskip, yt', ys', hget', heq⟩
  · rw [hskip, if_pos rfl, hframe2, heq, hget1]
  · rw [hget1] at hget'
    cases hget'
    rw [hskip, if_neg (by simp), hframe2, heq, dictGet_dictInsert_self]

theorem pyEnumFrom_append {α : Type} (s : Nat) (l1 l2 : List α) :
    pyEnumFrom s (l1 ++ l2) = pyEnumFrom s l1 ++ pyEnumFrom (s + l1.length) l2 := by
  induction l1 generalizing s with
  | nil => simp [pyEnumFrom]
  | cons x xs ih =>
    have h1 : (x :: xs) ++ l2 = x :: (xs ++ l2) := rfl
    rw [h1]
    show (s, x) :: pyEnumFrom (s + 1) (xs ++ l2) = _
    rw [ih (s + 1)]
    have harith : s + 1 + xs.length = s + (x :: xs).length := by
      simp only [List.length_cons]
      omega
    rw [harith]
    rfl

theorem pyEnumFrom_map_snd {α : Type} (s : Nat) (l : List α) :
    (pyEnumFrom s l).map Prod.snd = l := by
  induction l generalizing s with
  | nil => rfl
  | cons x xs ih => simp [pyEnumFrom, ih]

theorem pyEnumFrom_length {α : Type} (s : Nat) (l : List α) :
    (pyEnumFrom s l).length = l.length := by
  induction l generalizing s with
  | nil => rfl
  | cons x xs ih => simp [pyEnumFrom, ih]

theorem snd_mem_of_mem_pyEnumFrom {α : Type} {s : Nat} {l : List α}
    {p : Nat × α} (h : p ∈ pyEnumFrom s l) : p.2 ∈ l := by
  have := List.mem_map_of_mem Prod.snd h
  rwa [pyEnumFrom_map_snd] at this

/-- Characterization of the sample loop: the pair accumulated for an
endpoint grows by exactly the kept (non-skipped) samples, with ground
truth given by `trueValueSm` and predictions by `predValueAt`. -/
theorem evalSamples_char {ts : TestSet} {st : List String}
    {ltt : String → Option String} {eps : List String}
    {yp : List (List (List ℚ))} {tg : String} {l1 l2 : List String}
    (hsplit : eps = l1 ++ tg :: l2) (hn1 : tg ∉ l1) (hn2 : tg ∉ l2) :
    ∀ (sl : List (Nat × String)) (acc r : Results) (yt : List ℚ)
      (ys : List (List ℚ)),
    evalSamples ts st ltt eps yp acc sl = Except.ok r →
    dictGet acc tg = some (yt, ys) →
    dictGet r tg = some
      (yt ++ (keptFor ts st tg sl).map (fun p => trueValueSm ts st ltt tg p.2),
       ys ++ (keptFor ts st tg sl).map (fun p => predValueAt yp l1.length p.1)) := by
  intro sl
  induction sl with
  | nil =>
    intro acc r yt ys h hget
    simp only [evalSamples, Except.ok.injEq] at h
    subst h
    simp [keptFor, hget]
  | cons p rest ih =>
    intro acc r yt ys h hget
    obtain ⟨index, sm⟩ := p
    simp only [evalSamples] at h
    cases hdp : dictGet ts sm with
    | none => rw [hdp] at h; simp at h
    | some dp =>
    rw [hdp] at h
    simp only [orErr_some, ok_bind] at h
    cases hloop : evalTargets st ltt yp dp index acc (pyEnum eps) with
    | error e => rw [hloop] at h; simp at h
    | ok acc1 =>
    rw [hloop] at h
    simp only [ok_bind] at h
    have henum : pyEnum eps =
        pyEnumFrom 0 l1 ++ (l1.length, tg) :: pyEnumFrom (l1.length + 1) l2 := by
      rw [pyEnum, hsplit, pyEnumFrom_append]
      simp [pyEnumFrom]
    rw [henum] at hloop
    have hhit := evalTargets_hit
      (fun q hq => fun hqe => hn1 (by rw [← hqe]; exact snd_mem_of_mem_pyEnumFrom hq))
      (fun q hq => fun hqe => hn2 (by rw [← hqe]; exact snd_mem_of_mem_pyEnumFrom hq))
      hloop hget
    have hskipSm : skipsSm ts st tg sm = skipsDp st tg dp := by
      simp [skipsSm, hdp]
    have htvSm : trueValueSm ts st ltt tg sm = trueValueDp st ltt tg dp := by
      simp [trueValueSm, hdp]
    cases hskip : skipsDp st tg dp with
    | true =>
      rw [hskip, if_pos rfl] at hhit
      have := ih acc1 r yt ys h hhit
      rw [this]
      simp [keptFor, List.filter_cons, hskipSm, hskip]
    | false =>
      rw [hskip, if_neg (by simp)] at hhit
      have := ih acc1 r _ _ h hhit
      rw [this]
      simp [keptFor, List.filter_cons, hskipSm, hskip, htvSm, List.append_assoc]

theorem evalSamples_keys {ts : TestSet} {st : List String}
    {ltt : String → Option String} {eps : List String}
    {yp : List (List (List ℚ))} {sl : List (Nat × String)} {acc r : Results}
    {k : String} {v : Pair}
    (h : evalSamples ts st ltt eps yp acc sl = Except.ok r)
    (hk : dictGet acc k = some v) : ∃ v', dictGet r k = some v' := by
  induction sl generalizing acc v with
  | nil =>
    simp only [evalSamples, Except.ok.injEq] at h
    exact ⟨v, h ▸ hk⟩
  | cons p rest ih =>
    obtain ⟨index, sm⟩ := p
    simp only [evalSamples] at h
    cases hdp : dictGet ts sm with
    | none => rw [hdp] at h; simp at h
    | some dp =>
    rw [hdp] at h
    simp only [orErr_some, ok_bind] at h
    cases hloop : evalTargets st ltt yp dp index acc (pyEnum eps) with
    | error e => rw [hloop] at h; simp at h
    | ok acc1 =>
    rw [hloop] at h
    simp only [ok_bind] at h
    obtain ⟨v1, hv1⟩ := evalTargets_keys hloop hk
    exact ih h hv1

/-- Master characterization of `eval_model`: on a successful run, the pair
stored for an endpoint `tg` at position `l1.length` of the endpoint list
consists of the ground-truth values and predictions of exactly the kept
samples, in sorted sample order. -/
theorem eval_model_char {ts : TestSet} {model : Model}
    {tts dts : List (String × String)} {mt : String} {ad : Bool}
    {yp : List (List (List ℚ))} {r : Results} {tg : String}
    {l1 l2 : List String}
    (hsplit : endpointsOf tts dts ad = l1 ++ tg :: l2)
    (hn1 : tg ∉ l1) (hn2 : tg ∉ l2)
    (hyp : model_predictions ts model (sorted_targetsOf tts).length dts.length
      ad mt = Except.ok yp)
    (hrun : eval_model ts model tts dts mt ad = Except.ok r) :
    dictGet r tg = some
      ((keptSamples ts tts tg).map
         (fun p => trueValueSm ts (sorted_targetsOf tts)
           (local_task_typesOf tts dts ad) tg p.2),
       (keptSamples ts tts tg).map (fun p => predValueAt yp l1.length p.1)) := by
  unfold eval_model at hrun
  simp only [hyp, ok_bind] at hrun
  have htg : tg ∈ endpointsOf tts dts ad := by
    rw [hsplit]
    exact List.mem_append_right _ (List.mem_cons_self _ _)
  have hinit : dictGet
      ((endpointsOf tts dts ad).foldl (fun d t => dictInsert d t ([], [])) []) tg
      = some (([], []) : Pair) := by
    rw [dictGet_foldl_init, if_pos htg]
  have := evalSamples_char hsplit hn1 hn2 _ _ r [] [] hrun hinit
  simpa [keptSamples] using this

/-! ## Order properties of the lexicographic comparison -/

theorem char_eq_of_not_lt {a b : Char} (hab : charLt a b = false)
    (hba : charLt b a = false) : a = b := by
  apply Char.ext
  apply UInt32.ext
  simp only [charLt, decide_eq_false_iff_not, Nat.not_lt] at hab hba
  omega

theorem charLt_trans {a b c : Char} (hab : charLt a b = true)
    (hbc : charLt b c = true) : charLt a c = true := by
  simp only [charLt, decide_eq_true_eq] at *
  omega

theorem charLt_asymm {a b : Char} (hab : charLt a b = true) :
    charLt b a = false := by
  simp only [charLt, decide_eq_true_eq, decide_eq_false_iff_not, Nat.not_lt] at *
  omega

theorem lexLe_total : ∀ as bs : List Char, lexLe as bs = true ∨ lexLe bs as = true := by
  intro as
  induction as with
  | nil => intro bs; left; rfl
  | cons a as ih =>
    intro bs
    cases bs with
    | nil => right; rfl
    | cons b bs =>
      cases hab : charLt a b with
      | true => left; simp [lexLe, hab]
      | false =>
        cases hba : charLt b a with
        | true => right; simp [lexLe, hba]
        | false =>
          rcases ih bs with h | h
          · left; simp [lexLe, hab, hba, h]
          · right; simp [lexLe, hab, hba, h]

theorem lexLe_trans : ∀ as bs cs : List Char, lexLe as bs = true →
    lexLe bs cs = true → lexLe as cs = true := by
  intro as
  induction as with
  | nil => intro bs cs _ _; rfl
  | cons a as ih =>
    intro bs cs hab hbc
    cases bs with
    | nil => simp [lexLe] at hab
    | cons b bs =>
    cases cs with
    | nil => simp [lexLe] at hbc
    | cons c cs =>
    simp only [lexLe] at hab hbc ⊢
    cases h1 : charLt a b with
    | true =>
      cases h2 : charLt b c with
      | true => simp [charLt_trans h1 h2]
      | false =>
        cases h3 : charLt c b with
        | true =>
          rw [h2, h3] at hbc
          simp at hbc
        | false =>
          have : b = c := char_eq_of_not_lt h2 h3
          subst this
          simp [h1]
    | false =>
      cases h1' : charLt b a with
      | true => rw [h1, h1'] at hab; simp at hab
      | false =>
        have hba : a = b := char_eq_of_not_lt h1 h1'
        subst hba
        rw [h1] at hab
        rw [if_neg Bool.false_ne_true, if_neg Bool.false_ne_true] at hab
        cases h2 : charLt a c with
        | true => simp
        | false =>
          cases h3 : charLt c a with
          | true => simp [h2, h3] at hbc
          | false =>
            have : a = c := char_eq_of_not_lt h2 h3
            subst this
            rw [h2] at hbc
            rw [if_neg Bool.false_ne_true, if_neg Bool.false_ne_true] at hbc
            rw [if_neg Bool.false_ne_true, if_neg Bool.false_ne_true]
            exact ih bs cs hab hbc

theorem lexLe_antisymm : ∀ as bs : List Char, lexLe as bs = true →
    lexLe bs as = true → as = bs := by
  intro as
  induction as with
  | nil =>
    intro bs _ hba
    cases bs with
    | nil => rfl
    | cons b bs => simp [lexLe] at hba
  | cons a as ih =>
    intro bs hab hba
    cases bs with
    | nil => simp [lexLe] at hab
    | cons b bs =>
    simp only [lexLe] at hab hba
    cases h1 : charLt a b with
    | true =>
      rw [charLt_asymm h1, h1] at hba
      simp at hba
    | false =>
      cases h2 : charLt b a with
      | true => rw [h1, h2] at hab; simp at hab
      | false =>
        have heq : a = b := char_eq_of_not_lt h1 h2
        subst heq
        rw [h1] at hab hba
        rw [if_neg Bool.false_ne_true, if_neg Bool.false_ne_true] at hab
        rw [if_neg Bool.false_ne_true, if_neg Bool.false_ne_true] at hba
        rw [ih bs hab hba]

theorem strLe_total (a b : String) : strLe a b = true ∨ strLe b a = true :=
  lexLe_total a.data b.data

theorem strLe_trans {a b c : String} (hab : strLe a b = true)
    (hbc : strLe b c = true) : strLe a c = true :=
  lexLe_trans a.data b.data c.data hab hbc

theorem strLe_antisymm {a b : String} (hab : strLe a b = true)
    (hba : strLe b a = true) : a = b :=
  String.ext (lexLe_antisymm a.data b.data hab hba)

theorem pySorted_perm (l : List String) : (pySorted l).Perm l :=
  List.perm_insertionSort _ l

theorem pySorted_eq_of_perm {l1 l2 : List String} (h : l1.Perm l2) :
    pySorted l1 = pySorted l2 := by
  haveI : IsTotal String (fun a b => strLe a b = true) := ⟨strLe_total⟩
  haveI : IsTrans String (fun a b => strLe a b = true) :=
    ⟨fun _ _ _ => strLe_trans⟩
  haveI : IsAntisymm String (fun a b => strLe a b = true) :=
    ⟨fun _ _ => strLe_antisymm⟩
  exact List.eq_of_perm_of_sorted
    ((pySorted_perm l1).trans (h.trans (pySorted_perm l2).symm))
    (List.sorted_insertionSort _ l1) (List.sorted_insertionSort _ l2)

/-! ## dict lookup under permutation -/

theorem dictGet_eq_none_iff {α : Type} (d : List (String × α)) (k : String) :
    dictGet d k = none ↔ k ∉ d.map Prod.fst := by
  induction d with
  | nil => simp [dictGet]
  | cons p rest ih =>
    by_cases hk : k = p.1 <;> simp [dictGet, hk, ih]

theorem dictGet_eq_some_of_mem {α : Type} {d : List (String × α)} {k : String}
    {v : α} (hmem : (k, v) ∈ d) (hnd : (d.map Prod.fst).Nodup) :
    dictGet d k = some v := by
  induction d with
  | nil => simp at hmem
  | cons p rest ih =>
    rcases List.mem_cons.mp hmem with heq | htl
    · rw [← heq]
      simp [dictGet]
    · simp only [List.map_cons, List.nodup_cons] at hnd
      have hk : k ≠ p.1 := by
        intro hk
        exact hnd.1 (hk ▸ (List.mem_map_of_mem Prod.fst htl))
      simp [dictGet, hk, ih htl hnd.2]

theorem dictGet_perm {α : Type} {l1 l2 : List (String × α)} (h : l1.Perm l2)
    (hnd : (l1.map Prod.fst).Nodup) (k : String) :
    dictGet l1 k = dictGet l2 k := by
  have hnd2 : (l2.map Prod.fst).Nodup := ((h.map Prod.fst).nodup_iff).mp hnd
  cases hv : dictGet l1 k with
  | some v =>
    exact (dictGet_eq_some_of_mem (h.mem_iff.mp (dictGet_some_mem hv)) hnd2).symm
  | none =>
    have : k ∉ l1.map Prod.fst := (dictGet_eq_none_iff l1 k).mp hv
    have : k ∉ l2.map Prod.fst := fun hm => this ((h.map Prod.fst).mem_iff.mpr hm)
    exact ((dictGet_eq_none_iff l2 k).mpr this).symm

/-! ## Congruence and extraction lemmas -/

theorem model_predictions_congr (ts1 ts2 : TestSet) (model : Model)
    (n_targets n_descriptors : Nat) (ad : Bool) (mt : String) :
    model_predictions ts1 model n_targets n_descriptors ad mt =
      model_predictions ts2 model n_targets n_descriptors ad mt := rfl

theorem evalSamples_congr {ts1 ts2 : TestSet} {st : List String}
    {ltt : String → Option String} {eps : List String}
    {yp : List (List (List ℚ))}
    (hget : ∀ k, dictGet ts1 k = dictGet ts2 k) :
    ∀ (sl : List (Nat × String)) (acc : Results),
    evalSamples ts1 st ltt eps yp acc sl =
      evalSamples ts2 st ltt eps yp acc sl := by
  intro sl
  induction sl with
  | nil => intro acc; rfl
  | cons p rest ih =>
    intro acc
    obtain ⟨index, sm⟩ := p
    simp only [evalSamples, hget sm]
    cases dictGet ts2 sm with
    | none => rfl
    | some dp =>
      simp only [orErr_some, ok_bind]
      cases evalTargets st ltt yp dp index acc (pyEnum eps) with
      | error e => rfl
      | ok acc1 => simp only [ok_bind, ih]

theorem eval_model_ok_model_predictions {ts : TestSet} {model : Model}
    {tts dts : List (String × String)} {mt : String} {ad : Bool} {r : Results}
    (hrun : eval_model ts model tts dts mt ad = Except.ok r) :
    ∃ yp, model_predictions ts model (sorted_targetsOf tts).length dts.length
      ad mt = Except.ok yp := by
  unfold eval_model at hrun
  cases hmp : model_predictions ts model (sorted_targetsOf tts).length
      dts.length ad mt with
  | error e => simp [hmp] at hrun
  | ok yp => exact ⟨yp, rfl⟩

theorem mem_nodup_split {α : Type} {l : List α} {a : α} (hnd : l.Nodup)
    (ha : a ∈ l) : ∃ l1 l2, l = l1 ++ a :: l2 ∧ a ∉ l1 ∧ a ∉ l2 := by
  obtain ⟨l1, l2, rfl⟩ := List.append_of_mem ha
  rw [List.nodup_append] at hnd
  refine ⟨l1, l2, rfl, ?_, ?_⟩
  · intro hmem
    exact hnd.2.2 hmem (List.mem_cons_self _ _)
  · exact fun hmem => (List.nodup_cons.mp hnd.2.1).1 hmem

/-! ## Claims -/

/-- Claim C3: on the concrete test set with samples A (label 1), B (label 0),
C (label -1) for the single classification task t1, and a model whose
predictions in sample order A,B,C are [[0.1,0.9],[0.8,0.2],[0.5,0.5]],
`eval_model` returns the results dict mapping t1 to ([1,0],
[[0.1,0.9],[0.8,0.2]]), with sample C excluded. -/
theorem eval_model_end_to_end_scenario :
    eval_model tsC3 modelC3 [("t1", "classification")] [] "sklearn" false =
      Except.ok [("t1", ([1, 0], [[0.1, 0.9], [0.8, 0.2]]))] := by rfl

/-- Claim C4: `eval_model` is deterministic — it canonicalizes the sample
order by sorting the identifiers, so its result is invariant under any
permutation of the test-set representation (and two runs on the same
inputs trivially coincide). -/
theorem eval_model_deterministic {ts1 ts2 : TestSet} {model : Model}
    {tts dts : List (String × String)} {mt : String} {ad : Bool}
    (hperm : ts1.Perm ts2) (hnd : (ts1.map Prod.fst).Nodup) :
    eval_model ts1 model tts dts mt ad = eval_model ts2 model tts dts mt ad := by
  simp only [eval_model]
  have hkeys : pySorted (ts1.map Prod.fst) = pySorted (ts2.map Prod.fst) :=
    pySorted_eq_of_perm (hperm.map Prod.fst)
  rw [model_predictions_congr ts1 ts2 model (sorted_targetsOf tts).length
    dts.length ad mt, hkeys]
  cases model_predictions ts2 model (sorted_targetsOf tts).length dts.length
      ad mt with
  | error e => rfl
  | ok yp =>
    simp only [ok_bind]
    exact evalSamples_congr (fun k => dictGet_perm hperm hnd k) _ _

/-- Witness for C4 at a concrete permuted pair of test sets. -/
theorem eval_model_deterministic_witness :
    ([("B", (⟨[("t1", 0)], []⟩ : Datapoint)), ("A", ⟨[("t1", 1)], []⟩)] :
        TestSet).Perm [("A", ⟨[("t1", 1)], []⟩), ("B", ⟨[("t1", 0)], []⟩)] ∧
    eval_model [("B", ⟨[("t1", 0)], []⟩), ("A", ⟨[("t1", 1)], []⟩)] modelC3
        [("t1", "classification")] [] "sklearn" false =
      eval_model [("A", ⟨[("t1", 1)], []⟩), ("B", ⟨[("t1", 0)], []⟩)] modelC3
        [("t1", "classification")] [] "sklearn" false :=
  ⟨List.Perm.swap _ _ _,
    eval_model_deterministic (List.Perm.swap _ _ _) (by simp)⟩

/-- Claim C6: for every modeltype value other than the three recognized
conventions (sklearn, keras, keras_multitask), `model_predictions` fails
with the configuration error before producing any prediction list. -/
theorem model_predictions_invalid_modeltype {ts : TestSet} {model : Model}
    {n_targets n_descriptors : Nat} {ad : Bool} {mt : String}
    (h1 : mt ≠ "sklearn") (h2 : mt ≠ "keras") (h3 : mt ≠ "keras_multitask") :
    model_predictions ts model n_targets n_descriptors ad mt =
      Except.error "Improper modeltype." := by
  unfold model_predictions
  rw [if_neg h1, if_neg h2, if_neg h3]
  rfl

/-- Witness for C6 at the concrete modeltype "theano". -/
theorem model_predictions_invalid_modeltype_witness :
    model_predictions tsC3 modelC3 1 0 false "theano" =
      Except.error "Improper modeltype." :=
  model_predictions_invalid_modeltype (by decide) (by decide) (by decide)

/-- Claim C7: `model_predictions` always returns a list of per-endpoint
arrays; when the underlying model call returns a single unwrapped array
(sklearn or keras convention), it is wrapped into a one-element list. -/
theorem model_predictions_wraps_single {ts : TestSet}
    {n_targets n_descriptors : Nat} {ad : Bool} (arr : List (List ℚ)) :
    (∀ model : Model, model.predict_proba = PredOutput.single arr →
      model_predictions ts model n_targets n_descriptors ad "sklearn" =
        Except.ok [arr]) ∧
    (∀ model : Model, model.predict = PredOutput.single arr →
      model_predictions ts model n_targets n_descriptors ad "keras" =
        Except.ok [arr]) := by
  constructor
  · intro model h
    unfold model_predictions
    rw [if_pos rfl]
    simp [h]
  · intro model h
    unfold model_predictions
    rw [if_neg (by decide), if_pos rfl]
    simp [h]

/-- Witness for C7: the C3 fixture model returns a single unwrapped array
and `model_predictions` wraps it. -/
theorem model_predictions_wraps_single_witness :
    model_predictions tsC3 modelC3 1 0 false "sklearn" =
      Except.ok [[[0.1, 0.9], [0.8, 0.2], [0.5, 0.5]]] :=
  (model_predictions_wraps_single [[0.1, 0.9], [0.8, 0.2], [0.5, 0.5]]).1
    modelC3 rfl

theorem length_filter_pyEnumFrom {α : Type} (f : α → Bool) (s : Nat)
    (l : List α) :
    ((pyEnumFrom s l).filter (fun p => f p.2)).length = (l.filter f).length := by
  induction l generalizing s with
  | nil => rfl
  | cons x xs ih =>
    simp only [pyEnumFrom, List.filter_cons]
    cases f x <;> simp [ih]

theorem keptSamples_length (ts : TestSet) (tts : List (String × String))
    (tg : String) :
    (keptSamples ts tts tg).length = ts.length - skippedCount ts tts tg := by
  have h1 : (keptSamples ts tts tg).length =
      ((pySorted (ts.map Prod.fst)).filter
        (fun sm => !(skipsSm ts (sorted_targetsOf tts) tg sm))).length := by
    rw [keptSamples, keptFor, pyEnum]
    exact length_filter_pyEnumFrom
      (fun sm => !(skipsSm ts (sorted_targetsOf tts) tg sm)) 0 _
  have h2 := List.length_eq_length_filter_add
    (fun sm => skipsSm ts (sorted_targetsOf tts) tg sm)
    (l := pySorted (ts.map Prod.fst))
  have h3 : (pySorted (ts.map Prod.fst)).length = ts.length := by
    rw [(pySorted_perm _).length_eq, List.length_map]
  rw [h1, skippedCount]
  omega

/-- Claim C1: for every successful `eval_model` run and every endpoint of
the results dict, the ground-truth and predicted sequences have identical
length, equal to the number of samples minus the number of samples skipped
for that endpoint because of a missing (-1) label. -/
theorem eval_model_length_invariant {ts : TestSet} {model : Model}
    {tts dts : List (String × String)} {mt : String} {ad : Bool} {r : Results}
    (hnd : (endpointsOf tts dts ad).Nodup)
    (hrun : eval_model ts model tts dts mt ad = Except.ok r)
    {tg : String} (htg : tg ∈ endpointsOf tts dts ad) :
    ∃ yt ys, dictGet r tg = some (yt, ys) ∧ yt.length = ys.length ∧
      yt.length = ts.length - skippedCount ts tts tg := by
  obtain ⟨yp, hyp⟩ := eval_model_ok_model_predictions hrun
  obtain ⟨l1, l2, hsplit, hn1, hn2⟩ := mem_nodup_split hnd htg
  refine ⟨_, _, eval_model_char hsplit hn1 hn2 hyp hrun, ?_, ?_⟩
  · simp
  · rw [List.length_map, keptSamples_length]

/-- Witness for C1 on the spec scenario test set. -/
theorem eval_model_length_invariant_witness :
    ∃ yt ys, dictGet [("t1", (([1, 0] : List ℚ),
        ([[0.1, 0.9], [0.8, 0.2]] : List (List ℚ))))] "t1" = some (yt, ys) ∧
      yt.length = ys.length ∧
      yt.length = tsC3.length -
        skippedCount tsC3 [("t1", "classification")] "t1" :=
  @eval_model_length_invariant tsC3 modelC3 [("t1", "classification")] []
    "sklearn" false [("t1", ([1, 0], [[0.1, 0.9], [0.8, 0.2]]))]
    (by decide) (by rfl) "t1" (by decide)

/-- Claim C2: a sample whose label for a primary task is -1 contributes
zero entries to that endpoint's pair: the endpoint's sequences range over
exactly the kept samples, and the sample is not among them. -/
theorem eval_model_skips_missing_label {ts : TestSet} {model : Model}
    {tts dts : List (String × String)} {mt : String} {ad : Bool} {r : Results}
    {yp : List (List (List ℚ))}
    (hnd : (endpointsOf tts dts ad).Nodup)
    {tg : String} (htg : tg ∈ endpointsOf tts dts ad)
    (hyp : model_predictions ts model (sorted_targetsOf tts).length dts.length
      ad mt = Except.ok yp)
    (hrun : eval_model ts model tts dts mt ad = Except.ok r)
    {sm : String} {dp : Datapoint} (hsm : dictGet ts sm = some dp)
    (hprimary : tg ∈ sorted_targetsOf tts)
    (hlab : dictGet dp.labels tg = some (-1)) :
    (∃ l1 l2, endpointsOf tts dts ad = l1 ++ tg :: l2 ∧
      dictGet r tg = some
        ((keptSamples ts tts tg).map (fun p => trueValueSm ts
          (sorted_targetsOf tts) (local_task_typesOf tts dts ad) tg p.2),
         (keptSamples ts tts tg).map (fun p => predValueAt yp l1.length p.1))) ∧
    ∀ p ∈ keptSamples ts tts tg, p.2 ≠ sm := by
  obtain ⟨l1, l2, hsplit, hn1, hn2⟩ := mem_nodup_split hnd htg
  constructor
  · exact ⟨l1, l2, hsplit, eval_model_char hsplit hn1 hn2 hyp hrun⟩
  · intro p hp hpsm
    have hmem := List.mem_filter.mp hp
    rw [hpsm] at hmem
    have hc : (sorted_targetsOf tts).contains tg = true :=
      List.elem_eq_true_of_mem hprimary
    have hskip : skipsSm ts (sorted_targetsOf tts) tg sm = true := by
      simp only [skipsSm, hsm, skipsDp, hlab, hc, Bool.true_and]
      rfl
    rw [hskip] at hmem
    simp at hmem

/-- Witness for C2 on the spec scenario: sample C has label -1 and
contributes nothing. -/
theorem eval_model_skips_missing_label_witness :
    (∃ l1 l2, endpointsOf [("t1", "classification")] [] false =
        l1 ++ "t1" :: l2 ∧
      dictGet [("t1", (([1, 0] : List ℚ),
          ([[0.1, 0.9], [0.8, 0.2]] : List (List ℚ))))] "t1" = some
        ((keptSamples tsC3 [("t1", "classification")] "t1").map
          (fun p => trueValueSm tsC3
            (sorted_targetsOf [("t1", "classification")])
            (local_task_typesOf [("t1", "classification")] [] false) "t1" p.2),
         (keptSamples tsC3 [("t1", "classification")] "t1").map
          (fun p => predValueAt
            [[[0.1, 0.9], [0.8, 0.2], [0.5, 0.5]]] l1.length p.1))) ∧
    ∀ p ∈ keptSamples tsC3 [("t1", "classification")] "t1", p.2 ≠ "C" :=
  @eval_model_skips_missing_label tsC3 modelC3 [("t1", "classification")] []
    "sklearn" false [("t1", ([1, 0], [[0.1, 0.9], [0.8, 0.2]]))]
    [[[0.1, 0.9], [0.8, 0.2], [0.5, 0.5]]]
    (by decide) "t1" (by decide) (by rfl) (by rfl) "C" ⟨[("t1", -1)], []⟩
    (by rfl) (by decide) (by rfl)

/-- Claim C8: the endpoint list is the sorted task names followed, when
descriptor inclusion is enabled, by the sorted descriptor keys; for every
endpoint, the predicted values stored are taken from the prediction array
at that endpoint's position in this list. -/
theorem eval_model_endpoint_order {ts : TestSet} {model : Model}
    {tts dts : List (String × String)} {mt : String} {ad : Bool} {r : Results}
    {yp : List (List (List ℚ))} {tg : String} {l1 l2 : List String}
    (hsplit : endpointsOf tts dts ad = l1 ++ tg :: l2)
    (hn1 : tg ∉ l1) (hn2 : tg ∉ l2)
    (hyp : model_predictions ts model (sorted_targetsOf tts).length dts.length
      ad mt = Except.ok yp)
    (hrun : eval_model ts model tts dts mt ad = Except.ok r) :
    (endpointsOf tts dts true =
        sorted_targetsOf tts ++ pySorted (dts.map Prod.fst) ∧
      endpointsOf tts dts false = sorted_targetsOf tts) ∧
    dictGet r tg = some
      ((keptSamples ts tts tg).map (fun p => trueValueSm ts
        (sorted_targetsOf tts) (local_task_typesOf tts dts ad) tg p.2),
       (keptSamples ts tts tg).map (fun p => predValueAt yp l1.length p.1)) :=
  ⟨⟨rfl, rfl⟩, eval_model_char hsplit hn1 hn2 hyp hrun⟩

/-- Witness for C8 on the descriptor fixture, at the descriptor endpoint
"0" sitting at position 1 of the endpoint list. -/
theorem eval_model_endpoint_order_witness :
    (endpointsOf [("t1", "classification")] [("0", "log")] true =
        sorted_targetsOf [("t1", "classification")] ++
          pySorted ([("0", "log")].map Prod.fst) ∧
      endpointsOf [("t1", "classification")] [("0", "log")] false =
        sorted_targetsOf [("t1", "classification")]) ∧
    dictGet [("t1", (([1] : List ℚ), ([[0.3, 0.7]] : List (List ℚ)))),
        ("0", ([7], [[5]]))] "0" = some
      ((keptSamples tsDesc [("t1", "classification")] "0").map
        (fun p => trueValueSm tsDesc
          (sorted_targetsOf [("t1", "classification")])
          (local_task_typesOf [("t1", "classification")] [("0", "log")] true)
          "0" p.2),
       (keptSamples tsDesc [("t1", "classification")] "0").map
        (fun p => predValueAt [[[0.3, 0.7]], [[5]]] (["t1"] : List String).length p.1)) :=
  @eval_model_endpoint_order tsDesc modelDesc [("t1", "classification")]
    [("0", "log")] "sklearn" true
    [("t1", ([1], [[0.3, 0.7]])), ("0", ([7], [[5]]))]
    [[[0.3, 0.7]], [[5]]] "0" ["t1"] []
    (by rfl) (by decide) (by decide) (by rfl) (by rfl)

/-! ## Aggregator lemmas and claims C9, C10 -/

theorem column1_char : ∀ {rows : List (List ℚ)} {col : List ℚ},
    column1 rows = Except.ok col →
    col = rows.map (fun row => row[1]?.getD 0) := by
  intro rows
  induction rows with
  | nil =>
    intro col h
    simp only [column1, Except.ok.injEq] at h
    simp [← h]
  | cons row rest ih =>
    intro col h
    simp only [column1] at h
    cases hv : row[1]? with
    | none => rw [hv] at h; simp at h
    | some v =>
    rw [hv] at h
    simp only [orErr_some, ok_bind] at h
    cases hrest : column1 rest with
    | error e => rw [hrest] at h; simp at h
    | ok vs =>
      rw [hrest] at h
      simp only [ok_bind, pure_eq_ok, Except.ok.injEq] at h
      rw [← h, List.map_cons, ih hrest, hv]
      rfl

theorem dictInsert_not_mem {α : Type} {d : List (String × α)} {k : String}
    (v : α) (h : d.any (fun p => p.1 = k) = false) :
    dictInsert d k v = d ++ [(k, v)] := by
  unfold dictInsert
  rw [if_neg (by rw [h]; exact Bool.false_ne_true)]

theorem aucFold_char (roc : List ℚ → List ℚ → List ℚ → ℚ)
    (tts : List (String × String)) :
    ∀ (results : Results) (scores final : List (String × ℚ)),
    aucFold roc tts results scores = Except.ok final →
    (∀ e ∈ results, scores.any (fun q => q.1 = e.1) = false) →
    (results.map Prod.fst).Nodup →
    final = scores ++ aucScoresSpec roc tts results := by
  intro results
  induction results with
  | nil =>
    intro scores final h _ _
    simp only [aucFold, Except.ok.injEq] at h
    simp [aucScoresSpec, ← h]
  | cons q rest ih =>
    intro scores final h hdisj hnd
    obtain ⟨target, p⟩ := q
    simp only [aucFold] at h
    cases htt : dictGet tts target with
    | none => rw [htt] at h; simp at h
    | some tt =>
    rw [htt] at h
    simp only [orErr_some, ok_bind] at h
    simp only [List.map_cons, List.nodup_cons] at hnd
    by_cases hcls : tt = "classification"
    · rw [if_neg (by simp [hcls])] at h
      cases hcol : column1 p.2 with
      | error e => rw [hcol] at h; simp at h
      | ok col =>
      rw [hcol] at h
      simp only [ok_bind] at h
      have hnotin : scores.any (fun q => q.1 = target) = false :=
        hdisj (target, p) (List.mem_cons_self _ _)
      rw [dictInsert_not_mem _ hnotin] at h
      have hdisj' : ∀ e ∈ rest,
          (scores ++ [(target, roc p.1 col (labels_to_weights p.1))]).any
            (fun q => q.1 = e.1) = false := by
        intro e he
        rw [List.any_append]
        have h1 := hdisj e (List.mem_cons_of_mem _ he)
        have h2 : target ≠ e.1 := by
          intro hteq
          exact hnd.1 (hteq ▸ List.mem_map_of_mem Prod.fst he)
        simp [h1, h2]
      have hrec := ih _ final h hdisj' hnd.2
      have hspec : aucScoresSpec roc tts ((target, p) :: rest) =
          (target, roc p.1 (p.2.map (fun row => row[1]?.getD 0))
            (labels_to_weights p.1)) :: aucScoresSpec roc tts rest := by
        simp [aucScoresSpec, List.filterMap_cons, htt, hcls]
      rw [hrec, hspec, column1_char hcol]
      simp [List.append_assoc]
    · rw [if_pos (by simp [hcls])] at h
      have hrec := ih _ final h
        (fun e he => hdisj e (List.mem_cons_of_mem _ he)) hnd.2
      have hspec : aucScoresSpec roc tts ((target, p) :: rest) =
          aucScoresSpec roc tts rest := by
        simp [aucScoresSpec, List.filterMap_cons, htt, hcls]
      rw [hrec, hspec]

/-- Claim C9: the AUC aggregator produces a score exactly for the
classification endpoints of the results dict (regression endpoints are
skipped), each computed by the ROC-AUC primitive from the true labels, the
second element of every prediction vector, and the class-imbalance sample
weights. -/
theorem compute_roc_auc_scores_char {roc : List ℚ → List ℚ → List ℚ → ℚ}
    {results : Results} {tts : List (String × String)}
    {scores : List (String × ℚ)}
    (hnd : (results.map Prod.fst).Nodup)
    (h : compute_roc_auc_scores roc results tts = Except.ok scores) :
    scores = aucScoresSpec roc tts results :=
  aucFold_char roc tts results [] scores h (fun _ _ => rfl) hnd

/-- Witness for C9 on a two-endpoint results dict: the classification
endpoint is scored, the regression endpoint is skipped. -/
theorem compute_roc_auc_scores_char_witness :
    ([("t1", (1 : ℚ))] : List (String × ℚ)) =
      aucScoresSpec (fun _ _ _ => 1)
        [("t1", "classification"), ("t2", "regression")]
        [("t1", ([1, 0], [[0.1, 0.9], [0.8, 0.2]])), ("t2", ([3], [[4]]))] :=
  @compute_roc_auc_scores_char (fun _ _ _ => 1)
    [("t1", ([1, 0], [[0.1, 0.9], [0.8, 0.2]])), ("t2", ([3], [[4]]))]
    [("t1", "classification"), ("t2", "regression")]
    [("t1", 1)] (by decide) (by rfl)

theorem aucFold_error_of_missing (roc : List ℚ → List ℚ → List ℚ → ℚ)
    (tts : List (String × String)) :
    ∀ (results : Results) (scores : List (String × ℚ)),
    (∃ e ∈ results, dictGet tts e.1 = none) →
    ∃ err, aucFold roc tts results scores = Except.error err := by
  intro results
  induction results with
  | nil =>
    rintro scores ⟨e, he, _⟩
    simp at he
  | cons q rest ih =>
    rintro scores ⟨e, he, hnone⟩
    obtain ⟨k, p⟩ := q
    cases hq : dictGet tts k with
    | none => exact ⟨"KeyError", by simp [aucFold, hq]⟩
    | some tt =>
      rcases List.mem_cons.mp he with rfl | hrest
      · rw [hq] at hnone
        cases hnone
      · simp only [aucFold, hq, orErr_some, ok_bind]
        by_cases hcls : tt = "classification"
        · rw [if_neg (by simp [hcls])]
          cases hcol : column1 p.2 with
          | error err => exact ⟨err, by simp⟩
          | ok col =>
            simp only [ok_bind]
            exact ih _ ⟨e, hrest, hnone⟩
        · rw [if_pos (by simp [hcls])]
          exact ih _ ⟨e, hrest, hnone⟩

theorem r2Fold_error_of_missing (r2 : List ℚ → List (List ℚ) → ℚ)
    (tts : List (String × String)) :
    ∀ (results : Results) (scores : List (String × ℚ)),
    (∃ e ∈ results, dictGet tts e.1 = none) →
    ∃ err, r2Fold r2 tts results scores = Except.error err := by
  intro results
  induction results with
  | nil =>
    rintro scores ⟨e, he, _⟩
    simp at he
  | cons q rest ih =>
    rintro scores ⟨e, he, hnone⟩
    obtain ⟨k, p⟩ := q
    cases hq : dictGet tts k with
    | none => exact ⟨"KeyError", by simp [r2Fold, hq]⟩
    | some tt =>
      rcases List.mem_cons.mp he with rfl | hrest
      · rw [hq] at hnone
        cases hnone
      · simp only [r2Fold, hq, orErr_some, ok_bind]
        by_cases hreg : tt = "regression"
        · rw [if_neg (by simp [hreg])]
          exact ih _ ⟨e, hrest, hnone⟩
        · rw [if_pos (by simp [hreg])]
          exact ih _ ⟨e, hrest, hnone⟩

theorem rmsFold_error_of_missing (rms : List ℚ → List (List ℚ) → ℚ)
    (tts : List (String × String)) :
    ∀ (results : Results) (scores : List (String × ℚ)),
    (∃ e ∈ results, dictGet tts e.1 = none) →
    ∃ err, rmsFold rms tts results scores = Except.error err := by
  intro results
  induction results with
  | nil =>
    rintro scores ⟨e, he, _⟩
    simp at he
  | cons q rest ih =>
    rintro scores ⟨e, he, hnone⟩
    obtain ⟨k, p⟩ := q
    cases hq : dictGet tts k with
    | none => exact ⟨"KeyError", by simp [rmsFold, hq]⟩
    | some tt =>
      rcases List.mem_cons.mp he with rfl | hrest
      · rw [hq] at hnone
        cases hnone
      · simp only [rmsFold, hq, orErr_some, ok_bind]
        by_cases hreg : tt = "regression"
        · rw [if_neg (by simp [hreg])]
          exact ih _ ⟨e, hrest, hnone⟩
        · rw [if_pos (by simp [hreg])]
          exact ih _ ⟨e, hrest, hnone⟩

/-- Claim C10: the aggregators look up every endpoint key of the results
dict in the task-type dict they receive; a results dict built by
`eval_model` with descriptor inclusion contains the descriptor endpoints,
which the original task-type dict lacks, so every aggregator fails on
the lookup when given the original dict. -/
theorem aggregators_fail_on_descriptor_endpoint {ts : TestSet}
    {model : Model} {tts dts : List (String × String)} {mt : String}
    {r : Results} {d : String}
    (roc : List ℚ → List ℚ → List ℚ → ℚ) (r2 rms : List ℚ → List (List ℚ) → ℚ)
    (hrun : eval_model ts model tts dts mt true = Except.ok r)
    (hd : d ∈ dts.map Prod.fst) (hmiss : dictGet tts d = none) :
    (∃ v, dictGet r d = some v) ∧
    (∃ err, compute_roc_auc_scores roc r tts = Except.error err) ∧
    (∃ err, compute_r2_scores r2 r tts = Except.error err) ∧
    (∃ err, compute_rms_scores rms r tts = Except.error err) := by
  have hdv : ∃ v, dictGet r d = some v := by
    unfold eval_model at hrun
    cases hmp : model_predictions ts model (sorted_targetsOf tts).length
        dts.length true mt with
    | error e => simp [hmp] at hrun
    | ok yp =>
      simp only [hmp, ok_bind] at hrun
      have hd' : d ∈ endpointsOf tts dts true := by
        rw [endpointsOf, if_pos rfl]
        exact List.mem_append_right _ ((pySorted_perm _).mem_iff.mpr hd)
      have hinit : dictGet
          ((endpointsOf tts dts true).foldl
            (fun dd t => dictInsert dd t ([], [])) []) d
          = some (([], []) : Pair) := by
        rw [dictGet_foldl_init, if_pos hd']
      exact evalSamples_keys hrun hinit
  obtain ⟨v, hv⟩ := hdv
  have hmem : ∃ e ∈ r, dictGet tts e.1 = none := ⟨(d, v), dictGet_some_mem hv, hmiss⟩
  exact ⟨⟨v, hv⟩, aucFold_error_of_missing roc tts r [] hmem,
    r2Fold_error_of_missing r2 tts r [] hmem,
    rmsFold_error_of_missing rms tts r [] hmem⟩

/-- Witness for C10 on the descriptor fixture with the original task-type
dict lacking the descriptor endpoint "0". -/
theorem aggregators_fail_on_descriptor_endpoint_witness :
    ((∃ v, dictGet [("t1", (([1] : List ℚ), ([[0.3, 0.7]] : List (List ℚ)))),
        ("0", ([7], [[5]]))] "0" = some v) ∧
    (∃ err, compute_roc_auc_scores (fun _ _ _ => 1)
        [("t1", ([1], [[0.3, 0.7]])), ("0", ([7], [[5]]))]
        [("t1", "classification")] = Except.error err) ∧
    (∃ err, compute_r2_scores (fun _ _ => 1)
        [("t1", ([1], [[0.3, 0.7]])), ("0", ([7], [[5]]))]
        [("t1", "classification")] = Except.error err) ∧
    (∃ err, compute_rms_scores (fun _ _ => 1)
        [("t1", ([1], [[0.3, 0.7]])), ("0", ([7], [[5]]))]
        [("t1", "classification")] = Except.error err)) :=
  @aggregators_fail_on_descriptor_endpoint tsDesc modelDesc
    [("t1", "classification")] [("0", "log")] "sklearn"
    [("t1", ([1], [[0.3, 0.7]])), ("0", ([7], [[5]]))] "0"
    (fun _ _ _ => 1) (fun _ _ => 1) (fun _ _ => 1)
    (by rfl) (by decide) (by rfl)

/-! ## Claim C5: invalid classification labels abort the run -/

theorem evalTargetStep_bad_label_error {st : List String}
    {ltt : String → Option String} {yp : List (List (List ℚ))}
    {dp : Datapoint} {index : Nat} {tg : String} {l : ℚ}
    (hclass : ltt tg = some "classification")
    (hl : dictGet dp.labels tg = some l)
    (h0 : l ≠ 0) (h1 : l ≠ 1) (hm : l ≠ -1) :
    ∀ (acc : Results) (t_ind : Nat), ∃ err,
      evalTargetStep st ltt yp dp index acc t_ind tg = Except.error err := by
  intro acc t_ind
  unfold evalTargetStep
  rw [hclass]
  simp only [orErr_some, ok_bind]
  have hbeq : (l == (-1 : ℚ)) = false := by
    simp [hm]
  cases hc : st.contains tg with
  | true =>
    rw [hl]
    simp only [orErr_some, ok_bind, pure_eq_ok, hbeq, Bool.false_eq_true,
      if_true, if_false]
    cases hacc : dictGet acc tg with
    | none => exact ⟨"KeyError", by simp⟩
    | some p =>
      simp only [orErr_some, ok_bind]
      rw [if_neg h0, if_neg h1]
      exact ⟨"Labels must be 0/1.", rfl⟩
  | false =>
    simp only [pure_eq_ok, ok_bind, Bool.false_eq_true, if_false]
    cases hacc : dictGet acc tg with
    | none => exact ⟨"KeyError", by simp⟩
    | some p =>
      simp only [orErr_some, ok_bind]
      rw [if_pos trivial, hl]
      simp only [orErr_some, ok_bind]
      rw [if_neg h0, if_neg h1]
      exact ⟨"Labels must be 0/1.", rfl⟩

theorem evalTargets_step_ok {st : List String} {ltt : String → Option String}
    {yp : List (List (List ℚ))} {dp : Datapoint} {index : Nat} :
    ∀ {eps : List (Nat × String)} {acc acc' : Results},
    evalTargets st ltt yp dp index acc eps = Except.ok acc' →
    ∀ p ∈ eps, ∃ a a',
      evalTargetStep st ltt yp dp index a p.1 p.2 = Except.ok a' := by
  intro eps
  induction eps with
  | nil => intro acc acc' h p hp; simp at hp
  | cons q rest ih =>
    intro acc acc' h p hp
    obtain ⟨ti, tg⟩ := q
    simp only [evalTargets] at h
    cases hstep : evalTargetStep st ltt yp dp index acc ti tg with
    | error e => rw [hstep] at h; simp at h
    | ok acc1 =>
    rw [hstep] at h
    simp only [ok_bind] at h
    rcases List.mem_cons.mp hp with rfl | hrest
    · exact ⟨acc, acc1, hstep⟩
    · exact ih h p hrest

theorem evalSamples_inner_ok {ts : TestSet} {st : List String}
    {ltt : String → Option String} {eps : List String}
    {yp : List (List (List ℚ))} :
    ∀ {sl : List (Nat × String)} {acc r : Results},
    evalSamples ts st ltt eps yp acc sl = Except.ok r →
    ∀ q ∈ sl, ∃ dp, dictGet ts q.2 = some dp ∧
      ∃ a a', evalTargets st ltt yp dp q.1 a (pyEnum eps) = Except.ok a' := by
  intro sl
  induction sl with
  | nil => intro acc r h q hq; simp at hq
  | cons q0 rest ih =>
    intro acc r h q hq
    obtain ⟨index, sm⟩ := q0
    simp only [evalSamples] at h
    cases hdp : dictGet ts sm with
    | none => rw [hdp] at h; simp at h
    | some dp =>
    rw [hdp] at h
    simp only [orErr_some, ok_bind] at h
    cases hloop : evalTargets st ltt yp dp index acc (pyEnum eps) with
    | error e => rw [hloop] at h; simp at h
    | ok acc1 =>
    rw [hloop] at h
    simp only [ok_bind] at h
    rcases List.mem_cons.mp hq with rfl | hrest
    · exact ⟨dp, hdp, acc, acc1, hloop⟩
    · exact ih h q hrest

theorem exists_mem_pyEnum_of_mem {α : Type} {a : α} {l : List α}
    (h : a ∈ l) : ∃ i, (i, a) ∈ pyEnum l := by
  have hmem : a ∈ (pyEnumFrom 0 l).map Prod.snd := by
    rw [pyEnumFrom_map_snd]
    exact h
  obtain ⟨p, hp, heq⟩ := List.mem_map.mp hmem
  refine ⟨p.1, ?_⟩
  rw [pyEnum, ← heq]
  exact hp

theorem evalTargetStep_error_char {st : List String}
    {ltt : String → Option String} {yp : List (List (List ℚ))}
    {dp : Datapoint} {index : Nat} {acc : Results} {t_ind : Nat} {tg : String}
    {err : String}
    (hwf : stepWF st ltt yp dp index t_ind tg)
    (hacc : ∃ v, dictGet acc tg = some v)
    (h : evalTargetStep st ltt yp dp index acc t_ind tg = Except.error err) :
    err = "Labels must be 0/1." := by
  obtain ⟨⟨tt, hlt, htt2⟩, hcp, hlab, hdesc, pv, hpv⟩ := hwf
  obtain ⟨v, hv⟩ := hacc
  unfold evalTargetStep at h
  rw [hlt] at h
  simp only [orErr_some, ok_bind] at h
  cases hc : st.contains tg with
  | true =>
    rw [if_pos hc] at h
    obtain ⟨l, hl⟩ := hlab hc
    rw [hl] at h
    simp only [orErr_some, ok_bind, pure_eq_ok] at h
    cases hbeq : (l == (-1 : ℚ)) with
    | true =>
      rw [hbeq] at h
      simp at h
    | false =>
    rw [hbeq] at h
    simp only [Bool.false_eq_true, if_false] at h
    rw [hv] at h
    simp only [orErr_some, ok_bind] at h
    by_cases hcls : tt = "classification"
    · rw [if_pos hcls] at h
      by_cases hl0 : l = 0
      · rw [if_pos hl0, hpv] at h
        simp at h
      · by_cases hl1 : l = 1
        · rw [if_neg hl0, if_pos hl1, hpv] at h
          simp at h
        · rw [if_neg hl0, if_neg hl1] at h
          simp only [error_bind] at h
          cases h
          rfl
    · have hreg : tt = "regression" := htt2.resolve_left hcls
      rw [if_neg hcls, if_pos (by exact ⟨hc, hreg⟩), hpv] at h
      simp at h
  | false =>
    rw [if_neg (by rw [hc]; exact Bool.false_ne_true)] at h
    simp only [pure_eq_ok, ok_bind] at h
    rw [if_neg Bool.false_ne_true] at h
    rw [hv] at h
    simp only [orErr_some, ok_bind] at h
    by_cases hcls : tt = "classification"
    · exfalso
      rw [hcls] at hlt
      rw [hcp hlt] at hc
      cases hc
    · have hreg : tt = "regression" := htt2.resolve_left hcls
      obtain ⟨i, hi, dv, hdv⟩ := hdesc hc
      rw [if_neg hcls,
        if_neg (by intro hco; rw [hc] at hco; exact Bool.false_ne_true hco.1),
        if_pos (by exact ⟨by rw [hc]; exact Bool.false_ne_true, hreg⟩),
        hi] at h
      simp only [orErr_some, ok_bind] at h
      rw [hdv] at h
      simp only [orErr_some, ok_bind, hpv] at h
      simp at h

theorem evalTargetStep_wf_dichotomy {st : List String}
    {ltt : String → Option String} {yp : List (List (List ℚ))}
    {dp : Datapoint} {index : Nat} {acc : Results} {t_ind : Nat} {tg : String}
    (hwf : stepWF st ltt yp dp index t_ind tg)
    (hacc : ∃ v, dictGet acc tg = some v) :
    (∃ acc', evalTargetStep st ltt yp dp index acc t_ind tg = Except.ok acc') ∨
    evalTargetStep st ltt yp dp index acc t_ind tg =
      Except.error "Labels must be 0/1." := by
  cases hres : evalTargetStep st ltt yp dp index acc t_ind tg with
  | ok acc' => exact Or.inl ⟨acc', rfl⟩
  | error err =>
    have herr := evalTargetStep_error_char hwf hacc hres
    exact Or.inr (by rw [herr])

theorem evalTargets_wf_dichotomy {st : List String}
    {ltt : String → Option String} {yp : List (List (List ℚ))}
    {dp : Datapoint} {index : Nat} {endpoints : List String} :
    ∀ (l : List (Nat × String)) (acc : Results),
    (∀ q ∈ l, stepWF st ltt yp dp index q.1 q.2 ∧ q.2 ∈ endpoints) →
    (∀ e ∈ endpoints, ∃ v, dictGet acc e = some v) →
    (∃ acc', evalTargets st ltt yp dp index acc l = Except.ok acc' ∧
      ∀ e ∈ endpoints, ∃ v, dictGet acc' e = some v) ∨
    evalTargets st ltt yp dp index acc l =
      Except.error "Labels must be 0/1." := by
  intro l
  induction l with
  | nil => intro acc _ hP; exact Or.inl ⟨acc, rfl, hP⟩
  | cons q rest ih =>
    intro acc hwf hP
    obtain ⟨ti, tg⟩ := q
    have hw := hwf (ti, tg) (List.mem_cons_self _ _)
    rcases evalTargetStep_wf_dichotomy hw.1 (hP tg hw.2) with
      ⟨acc1, hstep⟩ | hstep
    · have hP1 : ∀ e ∈ endpoints, ∃ v, dictGet acc1 e = some v := by
        intro e he
        rcases evalTargetStep_ok_char hstep with ⟨_, rfl⟩ |
          ⟨_, yt, ys, hget, rfl⟩
        · exact hP e he
        · by_cases hetg : e = tg
          · subst hetg
            exact ⟨_, dictGet_dictInsert_self _ _ _⟩
          · rw [dictGet_dictInsert_ne _ _ _ _ hetg]
            exact hP e he
      simp only [evalTargets, hstep, ok_bind]
      exact ih acc1 (fun p hp => hwf p (List.mem_cons_of_mem _ hp)) hP1
    · exact Or.inr (by simp [evalTargets, hstep])

theorem evalSamples_wf_dichotomy {ts : TestSet} {st : List String}
    {ltt : String → Option String} {eps : List String}
    {yp : List (List (List ℚ))} :
    ∀ (sl : List (Nat × String)) (acc : Results),
    (∀ q ∈ sl, ∃ dp, dictGet ts q.2 = some dp ∧
      ∀ p ∈ pyEnum eps, stepWF st ltt yp dp q.1 p.1 p.2) →
    (∀ e ∈ eps, ∃ v, dictGet acc e = some v) →
    (∃ r, evalSamples ts st ltt eps yp acc sl = Except.ok r) ∨
    evalSamples ts st ltt eps yp acc sl =
      Except.error "Labels must be 0/1." := by
  intro sl
  induction sl with
  | nil => intro acc _ _; exact Or.inl ⟨acc, rfl⟩
  | cons q rest ih =>
    intro acc hwf hP
    obtain ⟨index, sm⟩ := q
    obtain ⟨dp, hdp, hsteps⟩ := hwf (index, sm) (List.mem_cons_self _ _)
    simp only [evalSamples, hdp, orErr_some, ok_bind]
    rcases evalTargets_wf_dichotomy (pyEnum eps) acc
      (fun p hp => ⟨hsteps p hp, snd_mem_of_mem_pyEnumFrom hp⟩) hP with
      ⟨acc1, hloop, hP1⟩ | hloop
    · rw [hloop]
      simp only [ok_bind]
      exact ih acc1 (fun p hp => hwf p (List.mem_cons_of_mem _ hp)) hP1
    · rw [hloop]
      exact Or.inr rfl

theorem eval_model_wf_dichotomy {ts : TestSet} {model : Model}
    {tts dts : List (String × String)} {mt : String} {ad : Bool}
    {yp : List (List (List ℚ))}
    (hmp : model_predictions ts model (sorted_targetsOf tts).length dts.length
      ad mt = Except.ok yp)
    (hwf : ∀ q ∈ pyEnum (pySorted (ts.map Prod.fst)), ∃ dp,
      dictGet ts q.2 = some dp ∧
      ∀ p ∈ pyEnum (endpointsOf tts dts ad),
        stepWF (sorted_targetsOf tts) (local_task_typesOf tts dts ad) yp dp
          q.1 p.1 p.2) :
    (∃ r, eval_model ts model tts dts mt ad = Except.ok r) ∨
    eval_model ts model tts dts mt ad =
      Except.error "Labels must be 0/1." := by
  unfold eval_model
  simp only [hmp, ok_bind]
  exact evalSamples_wf_dichotomy _ _ hwf
    (fun e he => ⟨([], []), by rw [dictGet_foldl_init, if_pos he]⟩)

/-- Claim C5: when a classification endpoint carries a label other than
0, 1 or -1 for some sample, and every other lookup of the pass is
well-formed, `eval_model` fails with the invalid-label error and returns
no results dict. -/
theorem eval_model_invalid_label {ts : TestSet} {model : Model}
    {tts dts : List (String × String)} {mt : String} {ad : Bool}
    {yp : List (List (List ℚ))} {sm tg : String} {dp : Datapoint} {l : ℚ}
    (hmp : model_predictions ts model (sorted_targetsOf tts).length dts.length
      ad mt = Except.ok yp)
    (hwf : ∀ q ∈ pyEnum (pySorted (ts.map Prod.fst)), ∃ dp,
      dictGet ts q.2 = some dp ∧
      ∀ p ∈ pyEnum (endpointsOf tts dts ad),
        stepWF (sorted_targetsOf tts) (local_task_typesOf tts dts ad) yp dp
          q.1 p.1 p.2)
    (hsm : sm ∈ ts.map Prod.fst) (hdp : dictGet ts sm = some dp)
    (htg : tg ∈ endpointsOf tts dts ad)
    (hltt : local_task_typesOf tts dts ad tg = some "classification")
    (hl : dictGet dp.labels tg = some l)
    (h0 : l ≠ 0) (h1 : l ≠ 1) (hm : l ≠ -1) :
    eval_model ts model tts dts mt ad =
      Except.error "Labels must be 0/1." := by
  rcases eval_model_wf_dichotomy hmp hwf with ⟨r, hr⟩ | herr
  · exfalso
    unfold eval_model at hr
    simp only [hmp, ok_bind] at hr
    have hsm' : sm ∈ pySorted (ts.map Prod.fst) :=
      (pySorted_perm _).mem_iff.mpr hsm
    obtain ⟨i, hi⟩ := exists_mem_pyEnum_of_mem hsm'
    obtain ⟨dp', hdp', a, a', hloop⟩ := evalSamples_inner_ok hr (i, sm) hi
    rw [hdp] at hdp'
    cases hdp'
    obtain ⟨ti, hti⟩ := exists_mem_pyEnum_of_mem htg
    obtain ⟨b, b', hstep⟩ := evalTargets_step_ok hloop (ti, tg) hti
    obtain ⟨err, herr'⟩ :=
      evalTargetStep_bad_label_error hltt hl h0 h1 hm b ti
    rw [herr'] at hstep
    cases hstep
  · exact herr

/-- Witness for C5 on a one-sample test set whose classification label
is 2. -/
theorem eval_model_invalid_label_witness :
    eval_model tsBadLabel modelC3 [("t1", "classification")] [] "sklearn"
      false = Except.error "Labels must be 0/1." :=
  @eval_model_invalid_label tsBadLabel modelC3 [("t1", "classification")] []
    "sklearn" false [[[0.1, 0.9], [0.8, 0.2], [0.5, 0.5]]] "A" "t1"
    ⟨[("t1", 2)], []⟩ 2 (by rfl)
    (by
      intro q hq
      have hq' : q = (0, "A") := by
        simpa [pyEnum, pySorted, pyEnumFrom, tsBadLabel] using hq
      subst hq'
      refine ⟨⟨[("t1", 2)], []⟩, rfl, ?_⟩
      intro p hp
      have hp' : p = (0, "t1") := by
        simpa [pyEnum, pyEnumFrom, endpointsOf, sorted_targetsOf, pySorted]
          using hp
      subst hp'
      refine ⟨⟨"classification", rfl, Or.inl rfl⟩, fun _ => rfl, ?_, ?_, ?_⟩
      · intro _
        exact ⟨2, rfl⟩
      · intro hfalse
        cases hfalse
      · exact ⟨[0.1, 0.9], rfl⟩)
    (by decide) (by rfl) (by decide) (by rfl) (by rfl)
    (by decide) (by decide) (by decide)

end DeepChem
